import Mathlib

/-!
# Verification of `submit_google_form.py` (google-form-submitter)

Shallow embedding of the core of `GoogleFormSubmitter` from
`src/submit_google_form.py`, together with proofs settling the frozen
claims about the natural-language specification.

Python strings are modelled as lists of Unicode code points (`List Nat`);
`codes` turns a Lean string literal into that representation.  Machine
behaviour of the two external library calls that the code relies on for
date handling (`datetime.strptime` with the six fixed format strings, and
`pandas.to_datetime(value, unit='D', origin='1899-12-30')`) is embedded
from their documented semantics: CPython's `_strptime` regular expressions
for `%d`, `%m`, `%y`, `%Y`, and the proleptic-Gregorian day conversion with
the 64-bit-nanosecond representable range of pandas timestamps.
-/

namespace GFS

/-- Code points of a Lean string literal (model of a Python `str`). -/
def codes (s : String) : List Nat := s.data.map Char.toNat

/-- Abbreviation for the model of Python strings. -/
abbrev PyStr := List Nat

/-! ## Field Normalizer (`GoogleFormSubmitter.normalize`, lines 83-95) -/

/-- Python whitespace recognised by `str.strip` / `\s` (ASCII fragment):
space, tab, newline, vertical tab, form feed, carriage return. -/
def isPySpace (c : Nat) : Bool :=
  decide (c = 32 ∨ c = 9 ∨ c = 10 ∨ c = 11 ∨ c = 12 ∨ c = 13)

/-- Model of Python `str.lower` on a single code point (ASCII fragment):
uppercase letters `A`-`Z` (65-90) map to `a`-`z` (97-122). -/
def pyLower (c : Nat) : Nat := if 65 ≤ c ∧ c ≤ 90 then c + 32 else c

/-- Model of Python `str.strip()`: drop leading and trailing whitespace. -/
def pyStrip (l : PyStr) : PyStr :=
  ((l.dropWhile isPySpace).reverse.dropWhile isPySpace).reverse

/-- Model of `re.sub(r'\s+', ' ', text)`: every maximal run of whitespace
characters is replaced by a single space. -/
def collapseWS : List Nat → List Nat
  | [] => []
  | c :: rest =>
    if isPySpace c then 32 :: collapseWS (rest.dropWhile isPySpace)
    else c :: collapseWS rest
termination_by l => l.length
decreasing_by
  · have h := (List.dropWhile_suffix (l := rest) isPySpace).sublist.length_le
    simp only [List.length_cons]
    omega
  · simp

/-- `GoogleFormSubmitter.normalize` (lines 83-95):
`text.replace('\n', '').replace('*', '').strip().lower()` followed by
`re.sub(r'\s+', ' ', text)`.  Newline = 10, asterisk = 42. -/
def normalize (l : PyStr) : PyStr :=
  collapseWS ((pyStrip ((l.filter (fun c => c != 10)).filter
    (fun c => c != 42))).map pyLower)

/-! ## Date Value Parser (`_parse_date_value`, lines 196-237) -/

/-- Proleptic Gregorian leap year (as used by `datetime` and pandas). -/
def isLeap (y : Nat) : Bool :=
  decide ((y % 4 = 0 ∧ ¬ y % 100 = 0) ∨ y % 400 = 0)

/-- Length of month `m` of year `y` in the proleptic Gregorian calendar. -/
def daysInMonth (y m : Nat) : Nat :=
  if m = 2 then (if isLeap y then 29 else 28)
  else if m = 4 ∨ m = 6 ∨ m = 9 ∨ m = 11 then 30
  else 31

/-- ASCII decimal digit. -/
def isDigitC (c : Nat) : Bool := decide (48 ≤ c ∧ c ≤ 57)

/-- Value of a list of decimal digit code points. -/
def digitsToNat (l : List Nat) : Nat := l.foldl (fun a c => a * 10 + (c - 48)) 0

/-- Role of one directive in a `strptime` format string. -/
inductive Role where
  | day    -- %d
  | mon    -- %m
  | year4  -- %Y
  | year2  -- %y
deriving DecidableEq, Repr

/-- CPython `_strptime` acceptance of one directive at the head of the
remaining input, with the directive followed in the format by a separator
(or the end of the string), as in the six formats used by
`_parse_date_value`:
`%d` is `(3[01]|[12]\d|0[1-9]|[1-9]| [1-9])` (note the space-padded
single-digit alternative), `%m` is `(1[0-2]|0[1-9]|[1-9])`,
`%Y` is `(\d\d\d\d)`, `%y` is `(\d\d)` with 0-68 mapped into 2000-2068 and
69-99 into 1969-1999.  Returns the directive's value and the unconsumed
input.  (Since the next format character is a separator or the end, the
directive effectively has to accept the whole maximal digit run at the
head: matching fewer digits leaves a digit where the separator is
expected.) -/
def consumeRole (r : Role) (s : List Nat) : Option (Nat × List Nat) :=
  let run := s.takeWhile isDigitC
  let rest := s.dropWhile isDigitC
  let v := digitsToNat run
  match r with
  | .day =>
    if (run.length = 1 ∨ run.length = 2) ∧ 1 ≤ v ∧ v ≤ 31 then some (v, rest)
    else
      match s with
      | 32 :: c :: rest2 => if 49 ≤ c ∧ c ≤ 57 then some (c - 48, rest2) else none
      | _ => none
  | .mon =>
    if (run.length = 1 ∨ run.length = 2) ∧ 1 ≤ v ∧ v ≤ 12 then some (v, rest) else none
  | .year4 => if run.length = 4 then some (v, rest) else none
  | .year2 =>
    if run.length = 2 then some (if v ≤ 68 then 2000 + v else 1900 + v, rest) else none

/-- One of the six date formats: three directives joined by one separator
character (`-` = 45 or `/` = 47). -/
structure Fmt where
  r1 : Role
  sep : Nat
  r2 : Role
  r3 : Role
deriving DecidableEq, Repr

/-- The ordered format list of `_parse_date_value` (line 218):
`['%d-%m-%Y', '%Y-%m-%d', '%m/%d/%Y', '%d/%m/%Y', '%d-%m-%y', '%Y/%m/%d']`. -/
def fmts : List Fmt :=
  [⟨.day, 45, .mon, .year4⟩, ⟨.year4, 45, .mon, .day⟩, ⟨.mon, 47, .day, .year4⟩,
   ⟨.day, 47, .mon, .year4⟩, ⟨.day, 45, .mon, .year2⟩, ⟨.year4, 47, .mon, .day⟩]

def isDayRole : Role → Bool | .day => true | _ => false
def isMonRole : Role → Bool | .mon => true | _ => false
def isYearRole : Role → Bool | .year4 => true | .year2 => true | _ => false

/-- Select the directive value playing a given role in a format. -/
def pick (want : Role → Bool) (f : Fmt) (v1 v2 v3 : Nat) : Nat :=
  if want f.r1 then v1 else if want f.r2 then v2 else v3

/-- Model of `datetime.strptime(value, fmt)` for one of the six formats,
returning `(day, month, year)` on success: the three digit runs must be
separated by exactly the format's separator, consume the whole string, be
accepted by the directives' regular expressions, and form a valid
`datetime` date (year ≥ 1, day within the month). -/
def strptimeF (f : Fmt) (s : List Nat) : Option (Nat × Nat × Nat) :=
  match consumeRole f.r1 s with
  | some (v1, c1 :: rest2) =>
    if c1 = f.sep then
      match consumeRole f.r2 rest2 with
      | some (v2, c2 :: rest4) =>
        if c2 = f.sep then
          match consumeRole f.r3 rest4 with
          | some (v3, []) =>
            let d := pick isDayRole f v1 v2 v3
            let m := pick isMonRole f v1 v2 v3
            let y := pick isYearRole f v1 v2 v3
            if 1 ≤ y ∧ 1 ≤ d ∧ d ≤ daysInMonth y m then some (d, m, y) else none
          | _ => none
        else none
      | _ => none
    else none
  | _ => none

/-- The `for fmt in [...]` loop of lines 218-226: first format that parses
successfully wins (the loop `break`s after the first success). -/
def tryFormats : List Fmt → List Nat → Option (Nat × Nat × Nat)
  | [], _ => none
  | f :: fs, s =>
    match strptimeF f s with
    | some r => some r
    | none => tryFormats fs s

/-- Proleptic Gregorian date from a day number, shifted so that day `0` is
0000-03-01 (the March-based shift makes the leap day the last day of a
year, century and era).  This is the standard hierarchical
era/century/quadrennium/year decomposition used by C-library
days-to-date conversions, and models the conversion underlying pandas
nanosecond timestamps.  Returns `(year, month, day)`.
Within an era of 146097 days, centuries 0-2 have 36524 days and century 3
has 36525 (hence the `- doe / 146096` correction); within a century,
quadrennia 0-23 have 1461 days and quadrennium 24 has 1460 or 1461; within
a quadrennium, years 0-2 have 365 days and year 3 has up to 366 (hence the
`- dq / 1460` correction). -/
def civilFromDaysU (u : Nat) : Nat × Nat × Nat :=
  let era := u / 146097
  let doe := u % 146097
  let c := doe / 36524 - doe / 146096
  let dc := doe - 36524 * c
  let q := dc / 1461
  let dq := dc - 1461 * q
  let yq := dq / 365 - dq / 1460
  let doy := dq - 365 * yq
  let y := (100 * c + 4 * q + yq) + era * 400
  let mp := (5 * doy + 2) / 153
  let d := doy - (153 * mp + 2) / 5 + 1
  let m := if mp < 10 then mp + 3 else mp - 9
  (if m ≤ 2 then y + 1 else y, m, d)

/-- Day number of a proleptic Gregorian date, counted from 0000-03-01
(Howard Hinnant's `days_from_civil`, same shift as `civilFromDaysU`).
This is the specification-side day count used to state claims about
"epoch + N days". -/
def rataDieU (y m d : Nat) : Nat :=
  let y1 := if m ≤ 2 then y - 1 else y
  let mp := if 2 < m then m - 3 else m + 9
  y1 * 365 + y1 / 4 - y1 / 100 + y1 / 400 + ((153 * mp + 2) / 5 + (d - 1))

/-- Model of `pd.to_datetime(value, unit='D', origin='1899-12-30')` on an
integer day count (line 230), returning `(year, month, day)`.
The origin 1899-12-30 lies 25569 days before 1970-01-01 and has shifted day
number 693899; pandas timestamps are 64-bit signed nanosecond counts from
1970-01-01, so an integer day offset `z` from 1970 is representable iff
`-106751 ≤ z ≤ 106751` (`106752 * 86400e9 > 2^63 - 1`), i.e. the serial `n`
is convertible iff `-81182 ≤ n ≤ 132320`; outside that range pandas raises
`OutOfBoundsDatetime`, which line 234 catches. -/
def pd_to_datetime_days (n : Int) : Option (Nat × Nat × Nat) :=
  if -81182 ≤ n ∧ n ≤ 132320 then some (civilFromDaysU (n + 693899).toNat)
  else none

/-- The possible runtime types of an Excel cell value reaching
`_parse_date_value`: a pandas `Timestamp`, any other object with
`day`/`month`/`year` attributes (e.g. `datetime`), a string, a number
(int/float, modelled at day granularity as an integer), or anything else. -/
inductive PyValue where
  | timestamp (day mon year : Nat)
  | dateLike (day mon year : Nat)
  | str (s : PyStr)
  | num (n : Int)
  | other
deriving DecidableEq

/-- `_parse_date_value` (lines 196-237): returns the `(day, month, year)`
triple of Options (all initialised to `None`).  Strings are stripped
(line 216) and tried against the six formats in order; numbers go through
the spreadsheet-serial conversion; anything else (or any failure) leaves
all three components `None`. -/
def parse_date_value : PyValue → Option Nat × Option Nat × Option Nat
  | .timestamp d m y => (some d, some m, some y)
  | .dateLike d m y => (some d, some m, some y)
  | .str s =>
    match tryFormats fmts (pyStrip s) with
    | some (d, m, y) => (some d, some m, some y)
    | none => (none, none, none)
  | .num n =>
    match pd_to_datetime_days n with
    | some (y, m, d) => (some d, some m, some y)
    | none => (none, none, none)
  | .other => (none, none, none)

/-! ## Form Mapper (`_extract_form_mapping`, lines 97-194) -/

/-- The field descriptor stored per mapped question (the dict literal at
lines 180-185; the xpath is derived from `index` and is omitted). -/
structure FieldInfo where
  ftype : PyStr
  label : PyStr
  index : Nat
deriving DecidableEq, Repr

/-- What the driver reports for one discovered question container: its
heading text if one could be read (line 170), and the `type` attribute of a
contained `input`/`textarea` if one was found (lines 175-176).  A `none`
models the corresponding lookup raising, which the loop skips. -/
structure Question where
  label : Option PyStr
  itype : Option PyStr
deriving DecidableEq

/-- Python `dict.__setitem__` on an association list: overwrite the value
in place if the key exists, else append. -/
def dictInsert : List (PyStr × FieldInfo) → PyStr → FieldInfo → List (PyStr × FieldInfo)
  | [], k, v => [(k, v)]
  | (k1, v1) :: t, k, v =>
    if k1 = k then (k, v) :: t else (k1, v1) :: dictInsert t k v

/-- Python `dict` lookup (first — and only, as keys are unique — match). -/
def dictFind (k : PyStr) : List (PyStr × FieldInfo) → Option FieldInfo
  | [] => none
  | (k1, v) :: t => if k1 = k then some v else dictFind k t

/-- The mapping loop of lines 167-192: `mapping[normalize(label)] = {...}`
for every question with a readable heading and a primitive input, with
`index = idx + 1` its 1-based ordinal; questions failing either lookup are
skipped. -/
def extractGo : Nat → List (PyStr × FieldInfo) → List Question → List (PyStr × FieldInfo)
  | _, m, [] => m
  | idx, m, q :: rest =>
    match q.label, q.itype with
    | some lab, some ty => extractGo (idx + 1) (dictInsert m (normalize lab) ⟨ty, lab, idx + 1⟩) rest
    | _, _ => extractGo (idx + 1) m rest

/-- `_extract_form_mapping`, given the discovered question containers in
document order. -/
def extract_form_mapping (qs : List Question) : List (PyStr × FieldInfo) :=
  extractGo 0 [] qs

/-- Specification-side view of the mapping loop: the `(normalized label,
descriptor)` pairs contributed by the questions, in discovery order. -/
def mappedEntries (qs : List Question) : List (PyStr × FieldInfo) :=
  qs.enum.filterMap fun p =>
    match p.2.label, p.2.itype with
    | some lab, some ty => some (normalize lab, ⟨ty, lab, p.1 + 1⟩)
    | _, _ => none

/-- Keys of an association list. -/
def dictKeys (m : List (PyStr × FieldInfo)) : List PyStr := m.map Prod.fst

/-! ## Row Submitter (`_submit_row`, lines 413-487) and Run Orchestrator
(`run`, lines 489-588)

The browser is abstracted into a `RowEnv` describing the observable outcome
of each driver interaction during one row: whether navigation / the initial
wait raised (and with what message), which field-fill attempts succeed
(`_fill_field_with_retry` and `_fill_date_field` catch all their own
exceptions and return a `bool`), whether the submit control was clickable
within the bounded wait, timed out (`TimeoutException`, line 477), or some
other driver call in the submit block raised, and whether the confirmation
signal was observed (`_wait_for_submission_confirmation` returns a `bool`,
catching its own timeout). -/

inductive SubmitBtnRes where
  | clickable
  | timeoutNotFound
  | exn (msg : PyStr)

structure RowEnv where
  navExn : Option PyStr
  fillOk : Nat → Bool
  submitBtn : SubmitBtnRes
  confirmed : Bool

/-- An Excel row: ordered column-name/value pairs. -/
abbrev Row := List (PyStr × PyValue)

/-- Decimal rendering of a number, as a Python f-string does it. -/
def decRepr (n : Nat) : PyStr := codes (Nat.repr n)

def rowPrefix (i : Nat) : PyStr := codes "Row " ++ decRepr (i + 1)

/-- `f"Row {row_index + 1}: {str(e)}"` (line 484). -/
def msgRowExn (i : Nat) (e : PyStr) : PyStr := rowPrefix i ++ codes ": " ++ e

/-- `f"Row {row_index + 1}: Failed fields - {', '.join(failed_fields)}"`
(line 446). -/
def msgFailedFields (i : Nat) (cols : List PyStr) : PyStr :=
  rowPrefix i ++ codes ": Failed fields - " ++ List.intercalate (codes ", ") cols

/-- `f"Row {row_index + 1}: Submit button not found"` (line 478). -/
def msgSubmitNotFound (i : Nat) : PyStr :=
  rowPrefix i ++ codes ": Submit button not found"

/-- `f"Row {row_index + 1}: Submission confirmation not received"`
(line 472). -/
def msgNoConfirm (i : Nat) : PyStr :=
  rowPrefix i ++ codes ": Submission confirmation not received"

/-- The columns of the row that are mapped (their normalized name is a key
of the field map) but whose fill attempt failed, in row order
(`failed_fields`, lines 425-438). -/
def failedFields (fm : List (PyStr × FieldInfo)) (row : Row) (env : RowEnv) : List PyStr :=
  row.enum.filterMap fun p =>
    if (dictFind (normalize p.2.1) fm).isSome && !(env.fillOk p.1) then some p.2.1
    else none

/-- `_submit_row` (lines 413-487).  Returns the success flag and the new
state of `self.errors`; the outer `try`/`except` (line 483) makes the
function total — every driver exception surfaces only as an appended error
message plus a `False` return. -/
def submit_row (fm : List (PyStr × FieldInfo)) (row : Row) (i : Nat)
    (env : RowEnv) (errors : List PyStr) : Bool × List PyStr :=
  match env.navExn with
  | some e => (false, errors ++ [msgRowExn i e])
  | none =>
    let failed := failedFields fm row env
    let errors1 := if failed.isEmpty then errors else errors ++ [msgFailedFields i failed]
    match env.submitBtn with
    | .timeoutNotFound => (false, errors1 ++ [msgSubmitNotFound i])
    | .exn e => (false, errors1 ++ [msgRowExn i e])
    | .clickable =>
      if env.confirmed then (true, errors1)
      else (false, errors1 ++ [msgNoConfirm i])

/-- One invocation of the progress callback (line 564): arguments
`(index + 1, total_rows, success_count, fail_count, message)`. -/
structure CBEntry where
  cur : Nat
  total : Nat
  succ : Nat
  fail : Nat
  msg : PyStr
deriving DecidableEq, Repr

/-- `f"Processing row {index + 1}/{total_rows}"` (line 566). -/
def msgProgress (i total : Nat) : PyStr :=
  codes "Processing row " ++ decRepr (i + 1) ++ codes "/" ++ decRepr total

/-- The result dictionary of `run` (lines 574-579). -/
structure RunResultM where
  total_rows : Nat
  success_count : Nat
  fail_count : Nat
  errors : List PyStr
deriving DecidableEq, Repr

instance {ε α : Type} [DecidableEq ε] [DecidableEq α] : DecidableEq (Except ε α) :=
  fun x y =>
    match x, y with
    | .error a, .error b => decidable_of_iff (a = b) (by simp)
    | .ok a, .ok b => decidable_of_iff (a = b) (by simp)
    | .error _, .ok _ => isFalse (by simp)
    | .ok _, .error _ => isFalse (by simp)

/-- The observable outcome of a whole run: the returned dictionary or the
re-raised fatal error, whether the `finally` block released the browser
session, the sequence of progress-callback invocations, and how many rows
the Row Submitter was invoked on. -/
structure RunOutput where
  result : Except PyStr RunResultM
  sessionReleased : Bool
  callbacks : List CBEntry
  rowsAttempted : Nat
deriving DecidableEq

def noFieldsMsg : PyStr := codes "No form fields detected! Check the form URL."

/-- The row loop of `run` (lines 550-567): submit each row, bump exactly
one of the two counters, then record the progress-callback invocation.
Returns `(success_count, fail_count, errors, callback log)`. -/
def runLoop (fm : List (PyStr × FieldInfo)) (envs : Nat → RowEnv) (total : Nat) :
    List Row → Nat → Nat → Nat → List PyStr → Nat × Nat × List PyStr × List CBEntry
  | [], _, s, f, errs => (s, f, errs, [])
  | row :: rest, idx, s, f, errs =>
    let r := submit_row fm row idx (envs idx) errs
    let s1 := if r.1 then s + 1 else s
    let f1 := if r.1 then f else f + 1
    let rec1 := runLoop fm envs total rest (idx + 1) s1 f1 r.2
    (rec1.1, rec1.2.1, rec1.2.2.1, ⟨idx + 1, total, s1, f1, msgProgress idx total⟩ :: rec1.2.2.2)

/-- `run` (lines 489-588), given the loaded rows, the outcome of the
mapping step (`_extract_form_mapping` either raises or returns a map) and
the per-row driver behaviour.  `self.errors` is reset to `[]` (line 505);
an empty map raises `"No form fields detected! Check the form URL."`
(lines 534-535) before any row is processed; the `finally` block (lines
586-588) releases the session on every exit path. -/
def run (rows : List Row) (mapRes : Except PyStr (List (PyStr × FieldInfo)))
    (envs : Nat → RowEnv) : RunOutput :=
  match mapRes with
  | .error e => ⟨.error e, true, [], 0⟩
  | .ok fm =>
    if fm.isEmpty then ⟨.error noFieldsMsg, true, [], 0⟩
    else
      let r := runLoop fm envs rows.length rows 0 0 0 []
      ⟨.ok ⟨rows.length, r.1, r.2.1, r.2.2.1⟩, true, r.2.2.2, rows.length⟩

/-! ## Claims C5 and C9: the Date Value Parser on numeric serials -/

/-- Reassembly lemma for `civilFromDaysU`: feeding the produced components
back through the `days_from_civil` arithmetic recovers the day number. -/
theorem civil_assembly (u era doe c dc q dq yq doy mp d m y : Nat)
    (h_era : era = u / 146097) (h_doe : doe = u % 146097)
    (h_c : c = doe / 36524 - doe / 146096) (h_dc : dc = doe - 36524 * c)
    (h_q : q = dc / 1461) (h_dq : dq = dc - 1461 * q)
    (h_yq : yq = dq / 365 - dq / 1460) (h_doy : doy = dq - 365 * yq)
    (h_mp : mp = (5 * doy + 2) / 153)
    (h_d : d = doy - (153 * mp + 2) / 5 + 1)
    (h_m : m = if mp < 10 then mp + 3 else mp - 9)
    (h_y : y = if m ≤ 2 then ((100 * c + 4 * q + yq) + era * 400) + 1
           else (100 * c + 4 * q + yq) + era * 400) :
    rataDieU y m d = u := by
  have hb0 : 146097 * era + doe = u ∧ doe ≤ 146096 := by omega
  have hb1 : c ≤ 3 ∧ 36524 * c ≤ doe := by omega
  have hb2 : dc ≤ 36524 := by omega
  have hb3 : 1461 * q ≤ dc ∧ q ≤ 24 := by omega
  have hb4 : dq ≤ 1460 := by omega
  have hb5 : 365 * yq ≤ dq ∧ yq ≤ 3 := by omega
  have hb6 : doy ≤ 365 := by omega
  have hb7 : mp ≤ 11 ∧ (153 * mp + 2) / 5 ≤ doy := by omega
  clear h_era h_doe h_c h_q h_yq h_mp
  rcases Nat.lt_or_ge mp 10 with hmp | hmp
  · rw [if_pos hmp] at h_m
    subst h_m
    rw [if_neg (by omega : ¬ mp + 3 ≤ 2)] at h_y
    subst h_y
    simp only [rataDieU]
    rw [if_neg (by omega : ¬ mp + 3 ≤ 2), if_pos (by omega : 2 < mp + 3)]
    simp only [Nat.add_sub_cancel]
    have hy4 : (100 * c + 4 * q + yq + era * 400) / 4 = 25 * c + q + 100 * era := by omega
    have hy100 : (100 * c + 4 * q + yq + era * 400) / 100 = c + 4 * era := by omega
    have hy400 : (100 * c + 4 * q + yq + era * 400) / 400 = era := by omega
    omega
  · rw [if_neg (by omega)] at h_m
    subst h_m
    rw [if_pos (by omega : mp - 9 ≤ 2)] at h_y
    subst h_y
    simp only [rataDieU]
    rw [if_pos (by omega : mp - 9 ≤ 2), if_neg (by omega : ¬ 2 < mp - 9)]
    simp only [Nat.add_sub_cancel]
    rw [Nat.sub_add_cancel (by omega : 9 ≤ mp)]
    have hy4 : (100 * c + 4 * q + yq + era * 400) / 4 = 25 * c + q + 100 * era := by omega
    have hy100 : (100 * c + 4 * q + yq + era * 400) / 100 = c + 4 * era := by omega
    have hy400 : (100 * c + 4 * q + yq + era * 400) / 400 = era := by omega
    omega

/-- `rataDieU` is a left inverse of `civilFromDaysU`: the date produced for
day number `u` has day number `u`. -/
theorem rataDieU_civilFromDaysU (u : Nat) :
    rataDieU (civilFromDaysU u).1 (civilFromDaysU u).2.1 (civilFromDaysU u).2.2 = u := by
  simp only [civilFromDaysU]
  exact civil_assembly u _ _ _ _ _ _ _ _ _ _ _ _ rfl rfl rfl rfl rfl rfl rfl rfl rfl rfl rfl rfl

/-- C5 (amended): for every integer serial `N` within the representable
pandas timestamp range `-81182 ≤ N ≤ 132320`, `_parse_date_value` returns
the day, month and year of the calendar date lying exactly `N` days after
the spreadsheet epoch 1899-12-30 (day numbers via `rataDieU`). -/
theorem parse_serial_epoch_offset (n : Int) (h1 : -81182 ≤ n) (h2 : n ≤ 132320) :
    ∃ d m y : Nat, parse_date_value (.num n) = (some d, some m, some y) ∧
      (rataDieU y m d : Int) = rataDieU 1899 12 30 + n := by
  have hpd : pd_to_datetime_days n = some (civilFromDaysU (n + 693899).toNat) := by
    unfold pd_to_datetime_days
    rw [if_pos ⟨h1, h2⟩]
  rcases hc : civilFromDaysU (n + 693899).toNat with ⟨y, m, d⟩
  refine ⟨d, m, y, ?_, ?_⟩
  · simp only [parse_date_value, hpd, hc]
  · have hr := rataDieU_civilFromDaysU ((n + 693899).toNat)
    rw [hc] at hr
    simp only at hr
    have hcast : ((n + 693899).toNat : Int) = n + 693899 := Int.toNat_of_nonneg (by omega)
    have he : rataDieU 1899 12 30 = 693899 := by decide
    omega

/-- Witness for C5 (amended) at the concrete serial `N = 1`:
1899-12-30 plus one day is 1899-12-31. -/
theorem parse_serial_epoch_offset_witness :
    ∃ d m y : Nat, parse_date_value (.num 1) = (some d, some m, some y) ∧
      (rataDieU y m d : Int) = rataDieU 1899 12 30 + 1 :=
  parse_serial_epoch_offset 1 (by norm_num) (by norm_num)

/-- Counterexample to C5 as stated: at the numeric input `N = 1000000`
(a serial whose date 1899-12-30 + N days is beyond the representable pandas
timestamp range) the conversion raises `OutOfBoundsDatetime`, the
`except` of lines 234-235 swallows it, and `_parse_date_value` returns
all-`None` rather than the day/month/year of epoch + N days. -/
theorem parse_serial_overflow :
    parse_date_value (.num 1000000) = (none, none, none) ∧
      ∀ d m y : Nat, parse_date_value (.num 1000000) ≠ (some d, some m, some y) := by
  have h : parse_date_value (.num 1000000) = (none, none, none) := by decide
  exact ⟨h, fun d m y hc => by rw [h] at hc; simp at hc⟩

/-- C9: `_parse_date_value` is all-or-nothing — for every input it returns
either three `None`s or three `Some`s, never a partially filled triple
(`_fill_date_field` relies on this in its `day is None or month is None or
year is None` check, lines 243-247). -/
theorem parse_date_all_or_nothing (v : PyValue) :
    parse_date_value v = (none, none, none) ∨
      ∃ d m y : Nat, parse_date_value v = (some d, some m, some y) := by
  cases v with
  | timestamp d m y => exact Or.inr ⟨d, m, y, rfl⟩
  | dateLike d m y => exact Or.inr ⟨d, m, y, rfl⟩
  | str s =>
    rcases h : tryFormats fmts (pyStrip s) with _ | ⟨d, m, y⟩
    · exact Or.inl (by simp only [parse_date_value, h])
    · exact Or.inr ⟨d, m, y, by simp only [parse_date_value, h]⟩
  | num n =>
    rcases h : pd_to_datetime_days n with _ | ⟨y, m, d⟩
    · exact Or.inl (by simp only [parse_date_value, h])
    · exact Or.inr ⟨d, m, y, by simp only [parse_date_value, h]⟩
  | other => exact Or.inl rfl

/-! ## Claim C4: the Date Value Parser on strings -/

/-- The format loop returns the value of the first format that parses
(`List.find?` view of the `for`/`break` loop). -/
theorem tryFormats_first_match (L : List Fmt) (s : List Nat) (f : Fmt)
    (r : Nat × Nat × Nat)
    (h1 : L.find? (fun g => (strptimeF g s).isSome) = some f)
    (h2 : strptimeF f s = some r) : tryFormats L s = some r := by
  induction L with
  | nil => simp at h1
  | cons g gs ih =>
    by_cases hg : (strptimeF g s).isSome
    · simp only [List.find?, hg] at h1
      obtain rfl : g = f := by simpa using h1
      simp only [tryFormats, h2]
    · have hnone : strptimeF g s = none := Option.not_isSome_iff_eq_none.mp hg
      have hg2 : (strptimeF g s).isSome = false := by simp [hnone]
      simp only [List.find?, hg2] at h1
      simp only [tryFormats, hnone]
      exact ih h1

/-- C4 (amended): for every date string, if `f` is the first of the six
format patterns (in the fixed order of line 218) under which the stripped
string parses, then `_parse_date_value` returns exactly the
`(day, month, year)` triple that `f` reads off the string.  (For a string
matching only one pattern this is the triple encoded in the string.) -/
theorem parse_str_first_pattern (s : PyStr) (f : Fmt) (d m y : Nat)
    (h1 : fmts.find? (fun g => (strptimeF g (pyStrip s)).isSome) = some f)
    (h2 : strptimeF f (pyStrip s) = some (d, m, y)) :
    parse_date_value (.str s) = (some d, some m, some y) := by
  simp only [parse_date_value, tryFormats_first_match fmts (pyStrip s) f (d, m, y) h1 h2]

/-- Witness for C4 (amended): `"15-08-1990"` parses under the first
pattern `%d-%m-%Y` to day 15, month 8, year 1990. -/
theorem parse_str_first_pattern_witness :
    parse_date_value (.str (codes "15-08-1990")) = (some 15, some 8, some 1990) :=
  parse_str_first_pattern (codes "15-08-1990") ⟨.day, 45, .mon, .year4⟩ 15 8 1990
    (by decide) (by decide)

/-- Counterexample to C4 as stated: `"03/04/2020"` matches the supported
pattern `%d/%m/%Y` (the fourth), which encodes day 3, month 4, year 2020 —
but `_parse_date_value` returns day 4, month 3, year 2020, because the
earlier pattern `%m/%d/%Y` also matches and the first success wins. -/
theorem parse_str_ambiguous_pattern :
    (⟨.day, 47, .mon, .year4⟩ : Fmt) ∈ fmts ∧
    strptimeF ⟨.day, 47, .mon, .year4⟩ (pyStrip (codes "03/04/2020")) = some (3, 4, 2020) ∧
    parse_date_value (.str (codes "03/04/2020")) = (some 4, some 3, some 2020) ∧
    parse_date_value (.str (codes "03/04/2020")) ≠ (some 3, some 4, some 2020) := by
  decide

/-! ## Claim C6: idempotence of the Field Normalizer -/

theorem mem_dropWhile_imp {p : Nat → Bool} {l : List Nat} {a : Nat}
    (h : a ∈ l.dropWhile p) : a ∈ l := by
  have hl := List.takeWhile_append_dropWhile p l
  rw [← hl]
  exact List.mem_append_right _ h

theorem getLast?_mem : ∀ {l : List Nat} {a : Nat}, l.getLast? = some a → a ∈ l := by
  intro l
  induction l with
  | nil => intro a h; simp at h
  | cons c rest ih =>
    intro a h
    cases rest with
    | nil => simp_all
    | cons b t =>
      rw [List.getLast?_cons_cons] at h
      exact List.mem_cons_of_mem _ (ih h)

theorem dropWhile_head?_false {p : Nat → Bool} :
    ∀ {l : List Nat} {a : Nat}, (l.dropWhile p).head? = some a → p a = false := by
  intro l
  induction l with
  | nil => intro a h; simp [List.dropWhile] at h
  | cons c rest ih =>
    intro a h
    rw [List.dropWhile_cons] at h
    by_cases hc : p c
    · rw [if_pos hc] at h
      exact ih h
    · rw [if_neg hc] at h
      rw [List.head?_cons] at h
      obtain rfl := Option.some.inj h
      simpa using hc

theorem dropWhile_ne_nil_getLast? {p : Nat → Bool} :
    ∀ {l : List Nat}, l.dropWhile p ≠ [] → (l.dropWhile p).getLast? = l.getLast? := by
  intro l
  induction l with
  | nil => intro h; simp [List.dropWhile] at h
  | cons c rest ih =>
    intro h
    rw [List.dropWhile_cons] at h ⊢
    by_cases hc : p c
    · rw [if_pos hc] at h ⊢
      rw [ih h]
      cases rest with
      | nil => simp [List.dropWhile] at h
      | cons b t => exact List.getLast?_cons_cons.symm
    · rw [if_neg hc]

theorem dropWhile_eq_self_of_head? {p : Nat → Bool} {l : List Nat}
    (h : ∀ a, l.head? = some a → p a = false) : l.dropWhile p = l := by
  cases l with
  | nil => rfl
  | cons c rest =>
    rw [List.dropWhile_cons, if_neg]
    simp [h c rfl]

theorem collapseWS_ne_nil {l : List Nat} (h : l ≠ []) : collapseWS l ≠ [] := by
  cases l with
  | nil => exact absurd rfl h
  | cons c rest =>
    rw [collapseWS]
    split <;> simp

theorem mem_collapseWS {a : Nat} :
    ∀ {l : List Nat}, a ∈ collapseWS l → a = 32 ∨ a ∈ l := by
  intro l
  induction l using collapseWS.induct with
  | case1 => intro h; simp [collapseWS] at h
  | case2 c rest hc ih =>
    intro h
    rw [collapseWS, if_pos hc] at h
    rcases List.mem_cons.mp h with rfl | h2
    · exact Or.inl rfl
    · rcases ih h2 with h3 | h3
      · exact Or.inl h3
      · exact Or.inr (List.mem_cons_of_mem _ (mem_dropWhile_imp h3))
  | case3 c rest hc ih =>
    intro h
    rw [collapseWS, if_neg hc] at h
    rcases List.mem_cons.mp h with rfl | h2
    · exact Or.inr (List.mem_cons_self _ _)
    · rcases ih h2 with h3 | h3
      · exact Or.inl h3
      · exact Or.inr (List.mem_cons_of_mem _ h3)

theorem ws_mem_collapseWS {a : Nat} :
    ∀ {l : List Nat}, a ∈ collapseWS l → isPySpace a = true → a = 32 := by
  intro l
  induction l using collapseWS.induct with
  | case1 => intro h _; simp [collapseWS] at h
  | case2 c rest hc ih =>
    intro h hws
    rw [collapseWS, if_pos hc] at h
    rcases List.mem_cons.mp h with rfl | h2
    · rfl
    · exact ih h2 hws
  | case3 c rest hc ih =>
    intro h hws
    rw [collapseWS, if_neg hc] at h
    rcases List.mem_cons.mp h with rfl | h2
    · exact absurd hws (by simpa using hc)
    · exact ih h2 hws

theorem collapseWS_head?_false {l : List Nat}
    (h : ∀ a, l.head? = some a → isPySpace a = false) :
    ∀ a, (collapseWS l).head? = some a → isPySpace a = false := by
  cases l with
  | nil => intro a ha; simp [collapseWS] at ha
  | cons c rest =>
    intro a ha
    have hc : isPySpace c = false := h c rfl
    rw [collapseWS, if_neg (by simp [hc])] at ha
    rw [List.head?_cons] at ha
    obtain rfl := Option.some.inj ha
    exact hc

theorem collapseWS_getLast?_false :
    ∀ {l : List Nat}, (∀ a, l.getLast? = some a → isPySpace a = false) →
      ∀ a, (collapseWS l).getLast? = some a → isPySpace a = false := by
  intro l
  induction l using collapseWS.induct with
  | case1 => intro _ a ha; simp [collapseWS] at ha
  | case2 c rest hc ih =>
    intro h a ha
    have hrest : rest ≠ [] := by
      intro he
      subst he
      exact absurd hc (by simpa using h c rfl)
    have hlast : (c :: rest).getLast? = rest.getLast? := by
      cases rest with
      | nil => exact absurd rfl hrest
      | cons b t => exact List.getLast?_cons_cons
    have hdrop : rest.dropWhile isPySpace ≠ [] := by
      intro he
      have hall := List.dropWhile_eq_nil_iff.mp he
      have hne : rest.getLast? ≠ none := by
        simpa [List.getLast?_eq_none_iff] using hrest
      obtain ⟨b, hb⟩ := Option.ne_none_iff_exists'.mp hne
      have hbf : isPySpace b = false := h b (hlast ▸ hb)
      exact absurd (hall b (getLast?_mem hb)) (by simp [hbf])
    rw [collapseWS, if_pos hc] at ha
    have hcoll : collapseWS (rest.dropWhile isPySpace) ≠ [] := collapseWS_ne_nil hdrop
    have ha2 : (collapseWS (rest.dropWhile isPySpace)).getLast? = some a := by
      cases hM : collapseWS (rest.dropWhile isPySpace) with
      | nil => exact absurd hM hcoll
      | cons b t =>
        rw [hM] at ha
        rw [List.getLast?_cons_cons] at ha
        exact ha
    refine ih ?_ a ha2
    intro b hb
    rw [dropWhile_ne_nil_getLast? hdrop] at hb
    exact h b (hlast ▸ hb)
  | case3 c rest hc ih =>
    intro h a ha
    rw [collapseWS, if_neg hc] at ha
    cases hrest : rest with
    | nil =>
      subst hrest
      simp only [collapseWS, List.getLast?_singleton] at ha
      obtain rfl := Option.some.inj ha
      simpa using hc
    | cons b t =>
      subst hrest
      have hcoll : collapseWS (b :: t) ≠ [] := collapseWS_ne_nil (by simp)
      have ha2 : (collapseWS (b :: t)).getLast? = some a := by
        cases hM : collapseWS (b :: t) with
        | nil => exact absurd hM hcoll
        | cons x u =>
          rw [hM] at ha
          rw [List.getLast?_cons_cons] at ha
          exact ha
      refine ih ?_ a ha2
      intro x hx
      apply h
      rw [List.getLast?_cons_cons]
      exact hx

/-- No two adjacent characters of the list are both whitespace. -/
def wsOK : List Nat → Bool
  | [] => true
  | [_] => true
  | a :: b :: t => (!(isPySpace a && isPySpace b)) && wsOK (b :: t)

theorem wsOK_collapseWS : ∀ {l : List Nat}, wsOK (collapseWS l) = true := by
  intro l
  induction l using collapseWS.induct with
  | case1 => simp [collapseWS, wsOK]
  | case2 c rest hc ih =>
    rw [collapseWS, if_pos hc]
    cases hM : collapseWS (rest.dropWhile isPySpace) with
    | nil => rfl
    | cons b t =>
      have hb : isPySpace b = false :=
        collapseWS_head?_false (fun x hx => dropWhile_head?_false hx) b (by rw [hM]; rfl)
      have hws : wsOK (b :: t) = true := hM ▸ ih
      simp [wsOK, hb, hws]
  | case3 c rest hc ih =>
    rw [collapseWS, if_neg hc]
    cases hM : collapseWS rest with
    | nil => rfl
    | cons b t =>
      have hws : wsOK (b :: t) = true := hM ▸ ih
      simp [wsOK, hws, (by simpa using hc : isPySpace c = false)]

theorem collapseWS_fixed :
    ∀ {l : List Nat}, wsOK l = true → (∀ a ∈ l, isPySpace a = true → a = 32) →
      collapseWS l = l := by
  intro l
  induction l with
  | nil => intros; simp [collapseWS]
  | cons c rest ih =>
    intro hok hmem
    by_cases hc : isPySpace c = true
    · have hc32 : c = 32 := hmem c (List.mem_cons_self _ _) hc
      rw [collapseWS, if_pos hc, hc32]
      cases rest with
      | nil => simp [List.dropWhile, collapseWS]
      | cons b t =>
        have hok2 := hok
        simp [wsOK, hc] at hok2
        rcases hok2 with ⟨hb, hok3⟩
        rw [List.dropWhile_cons, if_neg (by simp [hb])]
        rw [ih hok3 (fun a ha hws => hmem a (List.mem_cons_of_mem _ ha) hws)]
    · rw [collapseWS, if_neg hc]
      congr 1
      apply ih
      · cases rest with
        | nil => rfl
        | cons b t =>
          have hok2 := hok
          simp only [wsOK, Bool.and_eq_true] at hok2
          exact hok2.2
      · exact fun a ha hws => hmem a (List.mem_cons_of_mem _ ha) hws

theorem pyLower_idem (c : Nat) : pyLower (pyLower c) = pyLower c := by
  unfold pyLower
  split_ifs <;> omega

theorem pyLower_ws (c : Nat) : isPySpace (pyLower c) = isPySpace c := by
  unfold pyLower isPySpace
  split_ifs with h
  · rw [decide_eq_decide]
    omega
  · rfl

theorem pyLower_eq_10 {c : Nat} (h : pyLower c = 10) : c = 10 := by
  unfold pyLower at h
  split_ifs at h <;> omega

theorem pyLower_eq_42 {c : Nat} (h : pyLower c = 42) : c = 42 := by
  unfold pyLower at h
  split_ifs at h <;> omega

theorem map_pyLower_eq_self {l : List Nat} (h : ∀ a ∈ l, pyLower a = a) :
    l.map pyLower = l := by
  induction l with
  | nil => rfl
  | cons c rest ih =>
    rw [List.map_cons, h c (List.mem_cons_self _ _),
      ih (fun a ha => h a (List.mem_cons_of_mem _ ha))]

theorem mem_pyStrip {l : List Nat} {a : Nat} (h : a ∈ pyStrip l) : a ∈ l := by
  unfold pyStrip at h
  rw [List.mem_reverse] at h
  have h2 := mem_dropWhile_imp h
  rw [List.mem_reverse] at h2
  exact mem_dropWhile_imp h2

theorem pyStrip_head?_false {l : List Nat} :
    ∀ a, (pyStrip l).head? = some a → isPySpace a = false := by
  intro a ha
  unfold pyStrip at ha
  rw [List.head?_reverse] at ha
  have hne : (l.dropWhile isPySpace).reverse.dropWhile isPySpace ≠ [] := by
    intro he
    rw [he] at ha
    simp at ha
  rw [dropWhile_ne_nil_getLast? hne, List.getLast?_reverse] at ha
  exact dropWhile_head?_false ha

theorem pyStrip_getLast?_false {l : List Nat} :
    ∀ a, (pyStrip l).getLast? = some a → isPySpace a = false := by
  intro a ha
  unfold pyStrip at ha
  rw [List.getLast?_reverse] at ha
  exact dropWhile_head?_false ha

/-- C6: the Field Normalizer is idempotent — `normalize (normalize x)`
equals `normalize x` for every input string.  (Totality and purity hold by
construction of the model: `normalize` is a total function on code-point
lists, non-string input having first been rendered by `str`.) -/
theorem normalize_idempotent (l : PyStr) : normalize (normalize l) = normalize l := by
  have hmem : ∀ a ∈ normalize l, a = 32 ∨ ∃ b, b ≠ 10 ∧ b ≠ 42 ∧ a = pyLower b := by
    intro a ha
    rcases mem_collapseWS ha with h32 | hmid
    · exact Or.inl h32
    · rcases List.mem_map.mp hmid with ⟨b, hb, rfl⟩
      have hbl2 := mem_pyStrip hb
      rcases List.mem_filter.mp hbl2 with ⟨hb1, h42⟩
      rcases List.mem_filter.mp hb1 with ⟨_, h10⟩
      exact Or.inr ⟨b, bne_iff_ne.mp h10, bne_iff_ne.mp h42, rfl⟩
  have h10 : ∀ a ∈ normalize l, (a != 10) = true := by
    intro a ha
    rcases hmem a ha with rfl | ⟨b, hb10, _, rfl⟩
    · decide
    · exact bne_iff_ne.mpr fun he => hb10 (pyLower_eq_10 he)
  have h42 : ∀ a ∈ normalize l, (a != 42) = true := by
    intro a ha
    rcases hmem a ha with rfl | ⟨b, _, hb42, rfl⟩
    · decide
    · exact bne_iff_ne.mpr fun he => hb42 (pyLower_eq_42 he)
  have hlower : ∀ a ∈ normalize l, pyLower a = a := by
    intro a ha
    rcases hmem a ha with rfl | ⟨b, _, _, rfl⟩
    · decide
    · exact pyLower_idem b
  have hmid_head : ∀ a,
      (((pyStrip ((l.filter (fun c => c != 10)).filter (fun c => c != 42))).map
        pyLower).head? = some a) → isPySpace a = false := by
    intro a ha
    rw [List.head?_map] at ha
    rcases Option.map_eq_some'.mp ha with ⟨b, hb, rfl⟩
    rw [pyLower_ws]
    exact pyStrip_head?_false b hb
  have hmid_last : ∀ a,
      (((pyStrip ((l.filter (fun c => c != 10)).filter (fun c => c != 42))).map
        pyLower).getLast? = some a) → isPySpace a = false := by
    intro a ha
    rw [List.getLast?_map] at ha
    rcases Option.map_eq_some'.mp ha with ⟨b, hb, rfl⟩
    rw [pyLower_ws]
    exact pyStrip_getLast?_false b hb
  have hhead : ∀ a, (normalize l).head? = some a → isPySpace a = false :=
    collapseWS_head?_false hmid_head
  have hlast : ∀ a, (normalize l).getLast? = some a → isPySpace a = false :=
    collapseWS_getLast?_false hmid_last
  have fstrip : pyStrip (normalize l) = normalize l := by
    unfold pyStrip
    rw [dropWhile_eq_self_of_head? hhead]
    rw [dropWhile_eq_self_of_head? (fun a ha => by
      rw [List.head?_reverse] at ha
      exact hlast a ha)]
    exact List.reverse_reverse _
  show collapseWS ((pyStrip (((normalize l).filter (fun c => c != 10)).filter
    (fun c => c != 42))).map pyLower) = normalize l
  rw [List.filter_eq_self.mpr h10, List.filter_eq_self.mpr h42, fstrip,
    map_pyLower_eq_self hlower]
  exact collapseWS_fixed wsOK_collapseWS (fun a ha => ws_mem_collapseWS ha)

/-! ## Claim C8: the Form Mapper's last-wins dictionary -/

theorem dictFind_dictInsert (m : List (PyStr × FieldInfo)) (k k2 : PyStr) (v : FieldInfo) :
    dictFind k2 (dictInsert m k v) = if k2 = k then some v else dictFind k2 m := by
  induction m with
  | nil =>
    by_cases h : k2 = k
    · simp [dictInsert, dictFind, h]
    · simp [dictInsert, dictFind, h, (show ¬ k = k2 from fun he => h he.symm)]
  | cons p t ih =>
    obtain ⟨k1, v1⟩ := p
    by_cases h1 : k1 = k
    · subst h1
      by_cases h2 : k2 = k1
      · subst h2
        simp [dictInsert, dictFind]
      · simp [dictInsert, dictFind, h2, (show ¬ k1 = k2 from fun he => h2 he.symm)]
    · simp only [dictInsert, if_neg h1]
      by_cases h2 : k1 = k2
      · subst h2
        simp [dictFind, (show ¬ k1 = k from h1)]
      · simp only [dictFind, if_neg h2]
        rw [ih]

theorem dictFind_foldl (L : List (PyStr × FieldInfo)) (m : List (PyStr × FieldInfo))
    (k : PyStr) :
    dictFind k (L.foldl (fun acc p => dictInsert acc p.1 p.2) m) =
      match L.reverse.find? (fun p => decide (p.1 = k)) with
      | some p => some p.2
      | none => dictFind k m := by
  induction L generalizing m with
  | nil => simp
  | cons p t ih =>
    rw [List.foldl_cons, ih, List.reverse_cons, List.find?_append]
    cases hf : t.reverse.find? (fun q => decide (q.1 = k)) with
    | some q => rfl
    | none =>
      show dictFind k (dictInsert m p.1 p.2) =
        match Option.or none (List.find? (fun q => decide (q.1 = k)) [p]) with
        | some q => some q.2
        | none => dictFind k m
      rw [dictFind_dictInsert]
      by_cases h : p.1 = k
      · rw [if_pos h.symm]
        simp [List.find?, h]
      · rw [if_neg (fun he => h he.symm)]
        simp [List.find?, h]

theorem mem_dictKeys_dictInsert {m : List (PyStr × FieldInfo)} {k : PyStr}
    {v : FieldInfo} {a : PyStr} (h : a ∈ dictKeys (dictInsert m k v)) :
    a ∈ dictKeys m ∨ a = k := by
  induction m with
  | nil =>
    simp [dictInsert, dictKeys] at h
    exact Or.inr h
  | cons p t ih =>
    obtain ⟨k1, v1⟩ := p
    by_cases h1 : k1 = k
    · subst h1
      simp only [dictInsert, if_pos rfl, dictKeys, List.map_cons] at h
      rcases List.mem_cons.mp h with rfl | h2
      · exact Or.inr rfl
      · exact Or.inl (List.mem_cons_of_mem _ h2)
    · simp only [dictInsert, if_neg h1, dictKeys, List.map_cons] at h ⊢
      rcases List.mem_cons.mp h with rfl | h2
      · exact Or.inl (List.mem_cons_self _ _)
      · rcases ih h2 with h3 | h3
        · exact Or.inl (List.mem_cons_of_mem _ h3)
        · exact Or.inr h3

theorem nodup_dictKeys_dictInsert {m : List (PyStr × FieldInfo)} (k : PyStr)
    (v : FieldInfo) (h : (dictKeys m).Nodup) : (dictKeys (dictInsert m k v)).Nodup := by
  induction m with
  | nil => simp [dictInsert, dictKeys]
  | cons p t ih =>
    obtain ⟨k1, v1⟩ := p
    simp only [dictKeys, List.map_cons, List.nodup_cons] at h
    by_cases h1 : k1 = k
    · subst h1
      have hins : dictInsert ((k1, v1) :: t) k1 v = (k1, v) :: t := by
        simp [dictInsert]
      rw [hins]
      simp only [dictKeys, List.map_cons, List.nodup_cons]
      exact h
    · simp only [dictInsert, if_neg h1, dictKeys, List.map_cons, List.nodup_cons]
      refine ⟨?_, ih h.2⟩
      intro hmem
      rcases mem_dictKeys_dictInsert hmem with h2 | h2
      · exact h.1 h2
      · exact h1 h2

theorem nodup_dictKeys_foldl (L : List (PyStr × FieldInfo))
    (m : List (PyStr × FieldInfo)) (h : (dictKeys m).Nodup) :
    (dictKeys (L.foldl (fun acc p => dictInsert acc p.1 p.2) m)).Nodup := by
  induction L generalizing m with
  | nil => exact h
  | cons p t ih => exact ih _ (nodup_dictKeys_dictInsert _ _ h)

/-- The mapping loop is a left fold of dictionary insertions over the
contributed `(normalized label, descriptor)` pairs. -/
theorem extractGo_eq_foldl :
    ∀ (qs : List Question) (i : Nat) (m : List (PyStr × FieldInfo)),
      extractGo i m qs =
        ((qs.enumFrom i).filterMap fun p =>
          match p.2.label, p.2.itype with
          | some lab, some ty => some (normalize lab, ⟨ty, lab, p.1 + 1⟩)
          | _, _ => none).foldl (fun acc p => dictInsert acc p.1 p.2) m := by
  intro qs
  induction qs with
  | nil => intro i m; rfl
  | cons q rest ih =>
    intro i m
    obtain ⟨lab?, ty?⟩ := q
    cases lab? with
    | none => simp only [extractGo, List.enumFrom_cons, List.filterMap_cons]; exact ih _ _
    | some lab =>
      cases ty? with
      | none => simp only [extractGo, List.enumFrom_cons, List.filterMap_cons]; exact ih _ _
      | some ty =>
        simp only [extractGo, List.enumFrom_cons, List.filterMap_cons, List.foldl_cons]
        exact ih _ _

/-- C8: after the Form Mapper runs, the field map's keys (normalized
labels) are pairwise distinct, and looking a key up yields the descriptor
contributed by the *last* discovered question that normalizes to it
(`find?` over the reversed contribution list). -/
theorem extract_mapping_last_wins (qs : List Question) :
    (dictKeys (extract_form_mapping qs)).Nodup ∧
      ∀ k, dictFind k (extract_form_mapping qs) =
        ((mappedEntries qs).reverse.find? (fun p => decide (p.1 = k))).map Prod.snd := by
  have hme : mappedEntries qs =
      (qs.enumFrom 0).filterMap fun p =>
        match p.2.label, p.2.itype with
        | some lab, some ty => some (normalize lab, ⟨ty, lab, p.1 + 1⟩)
        | _, _ => none := by
    simp [mappedEntries, List.enum]
  constructor
  · rw [extract_form_mapping, extractGo_eq_foldl]
    exact nodup_dictKeys_foldl _ _ (by simp [dictKeys])
  · intro k
    rw [extract_form_mapping, extractGo_eq_foldl, dictFind_foldl, ← hme]
    cases hf : (mappedEntries qs).reverse.find? (fun p => decide (p.1 = k)) with
    | some p => rfl
    | none => rfl

/-! ## Claims C1, C2, C3, C7, C10: Row Submitter and Run Orchestrator -/

/-- Concrete objects used in witnesses and counterexamples. -/
def colName : PyStr := codes "Name"

def fmC : List (PyStr × FieldInfo) := [(normalize colName, ⟨codes "text", colName, 1⟩)]

def rowC : Row := [(colName, PyValue.str (codes "x"))]

/-- Driver behaviour: everything works except that the one field fill fails. -/
def envFillFails : RowEnv := ⟨none, fun _ => false, .clickable, true⟩

/-- Driver behaviour: everything works. -/
def envGood : RowEnv := ⟨none, fun _ => true, .clickable, true⟩

/-- Driver behaviour: the submit control is never clickable within the wait. -/
def envSubmitTimeout : RowEnv := ⟨none, fun _ => true, .timeoutNotFound, true⟩

/-- C2: when the mapping step yields zero fields, `run` raises the fatal
`"No form fields detected!"` error before any row is processed — no Row
Submitter invocation, no progress callback — and the `finally` block still
releases the browser session. -/
theorem run_empty_mapping_aborts (rows : List Row) (envs : Nat → RowEnv) :
    run rows (.ok []) envs =
      ⟨.error noFieldsMsg, true, [], 0⟩ := rfl

/-- C3: `_submit_row` is total (the outer `except` catches every driver
exception) and communicates failure only through its boolean result plus
messages appended to `self.errors`: the returned error list always extends
the incoming one, and a `False` return always comes with at least one
newly appended message. -/
theorem submit_row_total (fm : List (PyStr × FieldInfo)) (row : Row) (i : Nat)
    (env : RowEnv) (errors : List PyStr) :
    ∃ b newE, submit_row fm row i env errors = (b, errors ++ newE) ∧
      (b = false → newE ≠ []) := by
  rcases env with ⟨navExn, fillOk, btn, conf⟩
  cases navExn with
  | some e => exact ⟨false, [msgRowExn i e], rfl, fun _ => by simp⟩
  | none =>
    by_cases hfe : (failedFields fm row ⟨none, fillOk, btn, conf⟩).isEmpty = true
    · cases btn with
      | timeoutNotFound =>
        exact ⟨false, [msgSubmitNotFound i], by simp [submit_row, hfe], fun _ => by simp⟩
      | exn e =>
        exact ⟨false, [msgRowExn i e], by simp [submit_row, hfe], fun _ => by simp⟩
      | clickable =>
        cases conf with
        | true =>
          exact ⟨true, [], by simp [submit_row, hfe], fun hc => by simp at hc⟩
        | false =>
          exact ⟨false, [msgNoConfirm i], by simp [submit_row, hfe], fun _ => by simp⟩
    · cases btn with
      | timeoutNotFound =>
        refine ⟨false,
          [msgFailedFields i (failedFields fm row ⟨none, fillOk, .timeoutNotFound, conf⟩),
           msgSubmitNotFound i], ?_, fun _ => by simp⟩
        simp [submit_row, hfe]
      | exn e =>
        refine ⟨false,
          [msgFailedFields i (failedFields fm row ⟨none, fillOk, .exn e, conf⟩),
           msgRowExn i e], ?_, fun _ => by simp⟩
        simp [submit_row, hfe]
      | clickable =>
        cases conf with
        | true =>
          refine ⟨true,
            [msgFailedFields i (failedFields fm row ⟨none, fillOk, .clickable, true⟩)],
            ?_, fun hc => by simp at hc⟩
          simp [submit_row, hfe]
        | false =>
          refine ⟨false,
            [msgFailedFields i (failedFields fm row ⟨none, fillOk, .clickable, false⟩),
             msgNoConfirm i], ?_, fun _ => by simp⟩
          simp [submit_row, hfe]

/-- C7 (amended): when navigation succeeds but the submit control is not
clickable within the bounded wait, `_submit_row` returns `False` and the
last appended error is `"Row {i+1}: Submit button not found"`, which
contains the substring `"Submit"` (capitalized, as the code writes it) and
the row's 1-based index. -/
theorem submit_not_found_error (fm : List (PyStr × FieldInfo)) (row : Row) (i : Nat)
    (env : RowEnv) (errors : List PyStr)
    (h1 : env.navExn = none) (h2 : env.submitBtn = .timeoutNotFound) :
    (∃ mid, submit_row fm row i env errors = (false, mid ++ [msgSubmitNotFound i])) ∧
      codes "Submit" <:+: msgSubmitNotFound i ∧
      decRepr (i + 1) <:+: msgSubmitNotFound i := by
  refine ⟨?_, ?_, ?_⟩
  · simp only [submit_row, h1, h2]
    exact ⟨_, rfl⟩
  · refine ⟨rowPrefix i ++ codes ": ", codes " button not found", ?_⟩
    have hsplit : codes ": " ++ codes "Submit" ++ codes " button not found" =
        codes ": Submit button not found" := by decide
    simp only [msgSubmitNotFound, List.append_assoc]
    rw [← hsplit]
    simp [List.append_assoc]
  · refine ⟨codes "Row ", codes ": Submit button not found", ?_⟩
    simp [msgSubmitNotFound, rowPrefix, List.append_assoc]

/-- Witness for C7 (amended) at row index 0 with a concrete environment. -/
theorem submit_not_found_error_witness :
    (∃ mid, submit_row [] [] 0 envSubmitTimeout [] =
      (false, mid ++ [msgSubmitNotFound 0])) ∧
      codes "Submit" <:+: msgSubmitNotFound 0 ∧
      decRepr (0 + 1) <:+: msgSubmitNotFound 0 :=
  submit_not_found_error [] [] 0 envSubmitTimeout [] rfl rfl

/-- Counterexample to C7 as stated: the appended message is
`"Row 1: Submit button not found"`, which does *not* contain the
(lowercase) substring `"submit"`. -/
theorem submit_not_found_lowercase :
    submit_row [] [] 0 envSubmitTimeout [] = (false, [msgSubmitNotFound 0]) ∧
      ¬ codes "submit" <:+: msgSubmitNotFound 0 := by
  constructor
  · rfl
  · decide

/-- A per-row driver environment in which everything succeeds: navigation,
every field fill, the submit control, and the confirmation signal. -/
def goodEnv (e : RowEnv) : Prop :=
  e.navExn = none ∧ (∀ j, e.fillOk j = true) ∧
    e.submitBtn = .clickable ∧ e.confirmed = true

theorem submit_row_good (fm : List (PyStr × FieldInfo)) (row : Row) (i : Nat)
    (env : RowEnv) (errors : List PyStr) (h : goodEnv env) :
    submit_row fm row i env errors = (true, errors) := by
  obtain ⟨h1, h2, h3, h4⟩ := h
  have hff : failedFields fm row env = [] := by
    rw [failedFields, List.filterMap_eq_nil_iff]
    intro p hp
    simp [h2 p.1]
  simp [submit_row, h1, h3, h4, hff]

theorem runLoop_all_good (fm : List (PyStr × FieldInfo)) (envs : Nat → RowEnv)
    (total : Nat) :
    ∀ (rows : List Row) (idx s f : Nat) (errs : List PyStr),
      (∀ j, j < rows.length → goodEnv (envs (idx + j))) →
      (runLoop fm envs total rows idx s f errs).1 = s + rows.length ∧
        (runLoop fm envs total rows idx s f errs).2.1 = f ∧
        (runLoop fm envs total rows idx s f errs).2.2.1 = errs := by
  intro rows
  induction rows with
  | nil => intro idx s f errs _; simp [runLoop]
  | cons row rest ih =>
    intro idx s f errs h
    have h0 : goodEnv (envs idx) := by
      have := h 0 (by simp)
      rwa [Nat.add_zero] at this
    have hrow := submit_row_good fm row idx (envs idx) errs h0
    have hrest : ∀ j, j < rest.length → goodEnv (envs (idx + 1 + j)) := by
      intro j hj
      have := h (j + 1) (by simpa using Nat.succ_lt_succ hj)
      rwa [show idx + (j + 1) = idx + 1 + j by omega] at this
    obtain ⟨ih1, ih2, ih3⟩ := ih (idx + 1) (s + 1) f errs hrest
    refine ⟨?_, ?_, ?_⟩
    · simp [runLoop, hrow, ih1]
      omega
    · simp [runLoop, hrow, ih2]
    · simp [runLoop, hrow, ih3]

/-- C1 (amended): a full run over `N` rows in which navigation and *every
field fill* succeed, the submit control is found, and every submission is
confirmed returns exactly
`{total_rows: N, success_count: N, fail_count: 0, errors: []}`.
(The extra all-fills-succeed hypothesis is forced by the counterexample
`run_success_with_errors`: a confirmed row with a failed field fill still
returns success but appends a `Failed fields` message.) -/
theorem run_all_good (rows : List Row) (fm : List (PyStr × FieldInfo))
    (envs : Nat → RowEnv) (hfm : fm ≠ [])
    (h : ∀ j, j < rows.length → goodEnv (envs j)) :
    (run rows (.ok fm) envs).result = .ok ⟨rows.length, rows.length, 0, []⟩ := by
  obtain ⟨h1, h2, h3⟩ := runLoop_all_good fm envs rows.length rows 0 0 0 []
    (fun j hj => by simpa using h j hj)
  have hne : fm.isEmpty = false := by
    cases fm with
    | nil => exact absurd rfl hfm
    | cons a t => rfl
  simp [run, hne, h1, h2, h3]

/-- Witness for C1 (amended): one row, everything succeeding. -/
theorem run_all_good_witness :
    (run [rowC] (.ok fmC) (fun _ => envGood)).result = .ok ⟨1, 1, 0, []⟩ :=
  run_all_good [rowC] fmC (fun _ => envGood) (by decide)
    (fun _ _ => ⟨rfl, fun _ => rfl, rfl, rfl⟩)

/-- Counterexample to C1 as stated: a run of one row in which the Row
Submitter returns success (the submission is confirmed, so
`success_count = total_rows = 1` and `fail_count = 0`) but whose single
mapped field failed to fill — the returned error list is *not* empty: it
carries the `"Row 1: Failed fields - Name"` message appended at lines
445-448. -/
theorem run_success_with_errors :
    (run [rowC] (.ok fmC) (fun _ => envFillFails)).result =
      .ok ⟨1, 1, 0, [msgFailedFields 0 [colName]]⟩ ∧
      [msgFailedFields 0 [colName]] ≠ ([] : List PyStr) := by
  constructor
  · have hfnd : (dictFind (normalize colName) fmC).isSome = true := by
      simp [dictFind, fmC]
    have hffs : failedFields fmC rowC envFillFails = [colName] := by
      simp [failedFields, rowC, envFillFails, List.enum, List.enumFrom, hfnd]
    have e1 : envFillFails.navExn = none := rfl
    have e2 : envFillFails.submitBtn = .clickable := rfl
    have e3 : envFillFails.confirmed = true := rfl
    have hsub : submit_row fmC rowC 0 envFillFails [] =
        (true, [msgFailedFields 0 [colName]]) := by
      simp [submit_row, e1, e2, e3, hffs]
    have hne : fmC.isEmpty = false := rfl
    simp [run, runLoop, hsub, hne]
  · simp

/-- C10: at every invocation of the progress callback, the reported
success count plus the reported fail count equals the reported current row
ordinal (each processed row bumps exactly one of the two counters before
the callback fires), and the reported total is the constant row count of
the run. -/
theorem runLoop_callback_inv (fm : List (PyStr × FieldInfo)) (envs : Nat → RowEnv)
    (total : Nat) :
    ∀ (rows : List Row) (idx s f : Nat) (errs : List PyStr) (cb : CBEntry),
      s + f = idx →
      cb ∈ (runLoop fm envs total rows idx s f errs).2.2.2 →
      cb.succ + cb.fail = cb.cur ∧ cb.total = total := by
  intro rows
  induction rows with
  | nil => intro idx s f errs cb _ hmem; simp [runLoop] at hmem
  | cons row rest ih =>
    intro idx s f errs cb hsf hmem
    simp only [runLoop] at hmem
    rcases List.mem_cons.mp hmem with rfl | hmem2
    · constructor
      · cases hr : (submit_row fm row idx (envs idx) errs).1 <;> simp [hr] <;> omega
      · rfl
    · refine ih (idx + 1) _ _ _ cb ?_ hmem2
      cases hr : (submit_row fm row idx (envs idx) errs).1 <;> simp [hr] <;> omega

/-- C10 at the `run` level: every recorded progress-callback invocation of
a run satisfies `successCount + failCount = currentRowOrdinal` and reports
`totalRows = rows.length`. -/
theorem progress_callback_counts (rows : List Row)
    (mapRes : Except PyStr (List (PyStr × FieldInfo))) (envs : Nat → RowEnv)
    (cb : CBEntry) (h : cb ∈ (run rows mapRes envs).callbacks) :
    cb.succ + cb.fail = cb.cur ∧ cb.total = rows.length := by
  cases mapRes with
  | error e => simp [run] at h
  | ok fm =>
    by_cases hfm : fm.isEmpty = true
    · simp [run, hfm] at h
    · simp only [run, if_neg hfm] at h
      exact runLoop_callback_inv fm envs rows.length rows 0 0 0 [] cb rfl h

/-- A row with no columns (used to evaluate a run in a witness). -/
def rowE : Row := []

/-- The single callback invocation of the witness run. -/
def cbW : CBEntry := ⟨1, 1, 1, 0, msgProgress 0 1⟩

/-- Witness for C10: the one-row all-success run records exactly one
callback invocation, and the theorem instantiates to `1 + 0 = 1`. -/
theorem progress_callback_counts_witness :
    cbW.succ + cbW.fail = cbW.cur ∧ cbW.total = [rowE].length :=
  progress_callback_counts [rowE] (.ok fmC) (fun _ => envGood) cbW (by decide)

end GFS
